import Mathlib

/-!
Shallow embedding of the dolma acquisition pipeline
(`scripts/download.py`, `scripts/unzip.py`, `scripts/parse_blogs.py`,
`download/download.py`) together with proofs about its specification.

Strings are modelled as Lean `String`/`List Char`; the filesystem as an
association list from file names to file contents; the network and the
decompressor as explicit oracles passed to the functions that use them.
-/

/-! ## Generic string helpers (models of Python primitives) -/

/-- `hasPreL pat s`: `pat` is a leading run of `s` (element-wise). -/
def hasPreL : List Char → List Char → Bool
  | [], _ => true
  | _ :: _, [] => false
  | p :: ps, c :: cs => p == c && hasPreL ps cs

/-- `hasSubL pat s`: `pat` occurs contiguously somewhere inside `s`
(the model of Python's `pat in s`). -/
def hasSubL (pat : List Char) : List Char → Bool
  | [] => pat.isEmpty
  | c :: cs => hasPreL pat (c :: cs) || hasSubL pat cs

/-- `hasSufL pat s`: `s` ends with `pat` (the model of Python's `str.endswith`). -/
def hasSufL (pat s : List Char) : Bool := hasPreL pat.reverse s.reverse

/-- `s.endswith pat` on Lean strings. -/
def pyEndsWith (s pat : String) : Bool := hasSufL pat.data s.data

/-- Fuelled worker for `pyReplaceL`; `fuel ≥ s.length` makes it total in one pass.
Replaces each non-overlapping occurrence of `pat`, scanning left to right. -/
def pyReplaceFuel (pat rep : List Char) : Nat → List Char → List Char
  | 0, s => s
  | _ + 1, [] => []
  | fuel + 1, c :: cs =>
    if !pat.isEmpty && hasPreL pat (c :: cs) then
      rep ++ pyReplaceFuel pat rep fuel ((c :: cs).drop pat.length)
    else
      c :: pyReplaceFuel pat rep fuel cs

/-- Model of Python's `s.replace(pat, rep)` (all non-overlapping occurrences,
left to right) for a non-empty `pat`. -/
def pyReplaceL (pat rep s : List Char) : List Char := pyReplaceFuel pat rep s.length s

/-- Model of Python's `s.replace(pat, rep)` on Lean strings. -/
def pyReplace (s pat rep : String) : String := String.mk (pyReplaceL pat.data rep.data s.data)

/-- Model of Python's `str.lower()` (ASCII case folding suffices here). -/
def pyLower (s : String) : String := String.mk (s.data.map Char.toLower)

/-- Model of Python's `str.strip()`: drop whitespace from both ends. -/
def pyStrip (s : String) : String :=
  String.mk (((s.data.dropWhile Char.isWhitespace).reverse.dropWhile Char.isWhitespace).reverse)

/-- The characters after the last occurrence of `ch` (all of `s` when absent),
the model of Python's `s.rpartition(ch)[2]`. -/
def afterLast (ch : Char) (s : List Char) : List Char :=
  (s.reverse.takeWhile (fun c => !(c == ch))).reverse

/-- Model of `os.path.basename`: the part after the last `/`. -/
def basenameL (p : List Char) : List Char := afterLast '/' p

/-- The tail of the name from its last dot on (dot included), `none` when the
name has no dot; the recursive form of `name.rfind('.')`. -/
def extSplit : List Char → Option (List Char)
  | [] => none
  | c :: cs =>
    if c == '.' then
      match extSplit cs with
      | some s => some s
      | none => some (c :: cs)
    else extSplit cs

/-- Model of `pathlib.PurePath.suffix` on a file name: the extension starting at
the last dot, empty when the dot is leading (`i = 0`), trailing
(`i = len - 1`) or absent, exactly pathlib's `0 < i < len(name) - 1` guard on
`i = name.rfind('.')`. -/
def pathSuffix (name : String) : String :=
  match extSplit name.data with
  | none => ""
  | some s =>
    if s.length == name.data.length || s.length == 1 then "" else String.mk s

/-- Model of `pathlib.PurePath.stem`: the file name with `pathSuffix` removed. -/
def pathStem (name : String) : String :=
  String.mk (name.data.take (name.data.length - (pathSuffix name).data.length))

/-! ## Model of `urllib.parse.urlparse` (hostname and path extraction)

Only the fields the repository reads (`hostname`, `path`) are modelled, for the
URL shapes the scripts feed it: an optional scheme, an optional `//netloc`,
then the path, truncated at the query/fragment.  `urlHostname` returns `none`
exactly where CPython raises `ValueError` (mismatched IPv6 brackets), which is
the only parse failure the repository's callers can observe. -/

/-- Characters CPython allows inside a URL scheme. -/
def schemeChar (c : Char) : Bool := c.isAlpha || c.isDigit || c == '+' || c == '-' || c == '.'

/-- Strip a leading `scheme:` when the text before the first `:` is a valid scheme. -/
def dropScheme (u : List Char) : List Char :=
  let before := u.takeWhile (fun c => !(c == ':'))
  match u.dropWhile (fun c => !(c == ':')) with
  | ':' :: rest =>
    match before with
    | [] => u
    | c :: cs => if c.isAlpha && cs.all schemeChar then rest else u
  | _ => u

/-- The `netloc` and `path` components of a split URL. -/
structure SplitUrl where
  netloc : List Char
  path : List Char
deriving DecidableEq, Repr

/-- Split a URL into netloc and path, the model of `urlsplit` restricted to
those two fields. -/
def urlsplitModel (u : String) : SplitUrl :=
  let rest := dropScheme u.data
  if hasPreL ['/', '/'] rest then
    let r2 := rest.drop 2
    let netloc := r2.takeWhile (fun c => !(c == '/') && !(c == '?') && !(c == '#'))
    let after := r2.dropWhile (fun c => !(c == '/') && !(c == '?') && !(c == '#'))
    ⟨netloc, after.takeWhile (fun c => !(c == '?') && !(c == '#'))⟩
  else
    ⟨[], rest.takeWhile (fun c => !(c == '?') && !(c == '#'))⟩

/-- The `hostname` of a netloc: the part after the credentials, with the port
removed; `none` models the `ValueError` CPython raises on mismatched IPv6
brackets. -/
def urlHostname (netloc : List Char) : Option (List Char) :=
  if (netloc.contains '[') != (netloc.contains ']') then none
  else
    let hostinfo := afterLast '@' netloc
    if hasPreL ['['] hostinfo then some ((hostinfo.drop 1).takeWhile (fun c => !(c == ']')))
    else some (hostinfo.takeWhile (fun c => !(c == ':')))

/-! ## The URL classifier (`parse_blogs.is_blog_url`) -/

/-- The fixed allowlist `BLOG_DOMAINS` of `parse_blogs.py`. -/
def BLOG_DOMAINS : List String := [
  "wordpress.com", "blogspot.com", "medium.com", "substack.com",
  "tumblr.com", "ghost.io", "weebly.com", "wixsite.com", "squarespace.com",
  "livejournal.com", "typepad.com", "hubpages.com", "dev.to", "hashnode.dev",
  "github.io", "gitlab.io", "netlify.app", "vercel.app",
  "notion.site", "over-blog.com", "canalblog.com",
  "hatena.ne.jp", "ameblo.jp", "blog.sina.com.cn"]

/-- `BLOG_DOMAINS_RE.search(host)`: the host equals an allowlisted domain or
ends with `.` followed by one (regex `(?:^|\.)(d1|...|dn)$`). -/
def domainsRuleL (host : List Char) : Bool :=
  BLOG_DOMAINS.any (fun d => host == d.data || hasSufL ('.' :: d.data) host)

/-- After the literal `blog`, accept zero or more digits then a dot
(the `\d*\.` tail of `BLOG_SUBDOMAIN_RE`). -/
def digitsThenDot : List Char → Bool
  | [] => false
  | c :: cs => if c == '.' then true else if c.isDigit then digitsThenDot cs else false

/-- A `blog`-with-digits label starts at this position and is followed by a dot. -/
def blogLabelAt : List Char → Bool
  | 'b' :: 'l' :: 'o' :: 'g' :: rest => digitsThenDot rest
  | _ => false

/-- Search positions right after a `.` for a `blog\d*\.` label. -/
def subdomainSearch : List Char → Bool
  | [] => false
  | '.' :: rest => blogLabelAt rest || subdomainSearch rest
  | _ :: rest => subdomainSearch rest

/-- `BLOG_SUBDOMAIN_RE.search(host)`: regex `(^|\.)blog\d*\.`. -/
def subdomainRuleL (host : List Char) : Bool := blogLabelAt host || subdomainSearch host

/-- The `(/|$)` tail of `BLOG_PATH_RE`. -/
def slashOrEnd : List Char → Bool
  | [] => true
  | '/' :: _ => true
  | _ => false

/-- A `/blog` or `/blogs` segment starts at this position (regex
`/(blog|blogs)(/|$)` anchored here). -/
def blogSegAt : List Char → Bool
  | '/' :: 'b' :: 'l' :: 'o' :: 'g' :: rest =>
    slashOrEnd rest ||
      (match rest with
       | 's' :: r2 => slashOrEnd r2
       | _ => false)
  | _ => false

/-- `BLOG_PATH_RE.search(path)`: regex `/(blog|blogs)(/|$)` anywhere in the path. -/
def blogPathSearchL : List Char → Bool
  | [] => false
  | c :: cs => blogSegAt (c :: cs) || blogPathSearchL cs

/-- The index/listing override: the path contains `/category/`, `/tag/` or
`/author/` as a substring. -/
def overrideRuleL (path : List Char) : Bool :=
  hasSubL "/category/".data path || hasSubL "/tag/".data path ||
    hasSubL "/author/".data path

/-- `parse_blogs.is_blog_url`: lower-case the URL, parse it, then apply the
domain, subdomain and path rules in order; any parse failure yields `false`
(the `try`/`except` around the body). -/
def is_blog_url (url : String) : Bool :=
  let su := urlsplitModel (pyLower url)
  match urlHostname su.netloc with
  | none => false
  | some host =>
    if domainsRuleL host then true
    else if subdomainRuleL host then true
    else if blogPathSearchL su.path then
      if overrideRuleL su.path then false else true
    else false

/-! ## Outcomes and the filesystem model

`TransferOutcome` of the spec; the reason strings follow the log messages of
the code.  The filesystem is an association list from file names to contents;
a fresh write shadows older entries. -/

inductive Outcome
  | Completed
  | Skipped (reason : String)
  | Failed
deriving DecidableEq, Repr

/-- The filesystem of one directory: file name to file content. -/
def Fs := List (String × String)
deriving DecidableEq, Repr

/-- `dst.exists()` plus content observation. -/
def fsRead (fs : Fs) (name : String) : Option String := List.lookup name fs

/-- `open(dst, "wb")` followed by writing `content`. -/
def fsWrite (fs : Fs) (name content : String) : Fs := (name, content) :: fs

/-- `path.unlink()`. -/
def fsErase (fs : Fs) (name : String) : Fs :=
  List.filter (fun p => !(p.1 == name)) fs

/-! ## The Fetcher (`scripts/download.py`, mirrored by `download/download.py`)

The network is an oracle from attempt number to what `requests.get` does on
that attempt: deliver a full body, fail before the destination is opened, or
fail mid-stream leaving a partial body behind. -/

/-- What one network attempt does. -/
inductive NetResult
  | success (body : String)
  | failEarly
  | failMid (part : String)
deriving DecidableEq, Repr

/-- The report of one `download_one` call: its outcome, how many attempts ran,
the summed arguments of `time.sleep`, and the directory afterwards. -/
structure FetchResult where
  outcome : Outcome
  attempts : Nat
  slept : Nat
  fs : Fs
deriving DecidableEq, Repr

/-- `safe_filename`: `os.path.basename(urlparse(url).path)`. -/
def safe_filename (url : String) : String :=
  String.mk (basenameL (urlsplitModel url).path)

/-- The `for attempt in range(1, retry + 1)` loop of `download_one`: on success
write the body and return; on any error sleep `2 * attempt` and move on; after
the last attempt report failure.  `remaining` counts the attempts still
allowed, `attempt` is the 1-based attempt number. -/
def fetchLoop (net : Nat → NetResult) (name : String) :
    Nat → Nat → Nat → Fs → FetchResult
  | 0, attempt, slept, fs => ⟨.Failed, attempt - 1, slept, fs⟩
  | remaining + 1, attempt, slept, fs =>
    match net attempt with
    | .success body => ⟨.Completed, attempt, slept, fsWrite fs name body⟩
    | .failEarly => fetchLoop net name remaining (attempt + 1) (slept + 2 * attempt) fs
    | .failMid part =>
      fetchLoop net name remaining (attempt + 1) (slept + 2 * attempt) (fsWrite fs name part)

/-- `download_one(url, out_dir, retry, ...)`: skip when the destination exists
with positive size, otherwise run the retry loop. -/
def download_one (net : Nat → NetResult) (url : String) (retry : Nat) (fs : Fs) :
    FetchResult :=
  let name := safe_filename url
  match fsRead fs name with
  | some content =>
    if content.length > 0 then ⟨.Skipped "already exists", 0, 0, fs⟩
    else fetchLoop net name retry 1 0 fs
  | none => fetchLoop net name retry 1 0 fs

/-! ## The Extractor (`scripts/unzip.py`) -/

/-- What the decompressor does on this source file: produce the full content,
fail before writing anything, or fail mid-stream leaving a partial file. -/
inductive DecompResult
  | ok (content : String)
  | errEarly
  | errMid (part : String)
deriving DecidableEq, Repr

/-- The report of one `decompress_file` call: outcome, number of decompression
attempts made, and the source and output directories afterwards. -/
structure UnzipResult where
  outcome : Outcome
  attempts : Nat
  srcFs : Fs
  outFs : Fs
deriving DecidableEq, Repr

/-- The destination-name derivation of `decompress_file`: four `endswith`
branches using Python `str.replace`, with a stem-based fallback. -/
def deriveDst (base : String) : String :=
  if pyEndsWith base ".jsonl.zst" then pyReplace base ".jsonl.zst" ".json.jsonl"
  else if pyEndsWith base ".jsonl.gz" then pyReplace base ".jsonl.gz" ".json.jsonl"
  else if pyEndsWith base ".json.zst" then pyReplace base ".json.zst" ".json.jsonl"
  else if pyEndsWith base ".json.gz" then pyReplace base ".json.gz" ".json.jsonl"
  else pathStem base ++ ".jsonl"

/-- `decompress_file(src, out_dir, ..., delete_src)` on the file named `base`:
suffix gate, decompressed-name gate, existence gate, then a single
decompression attempt; on success optionally unlink the source, on any error
report failure at once. -/
def decompress_file (dec : DecompResult) (deleteSrc : Bool) (base : String)
    (srcFs outFs : Fs) : UnzipResult :=
  if !(pathSuffix base == ".zst" || pathSuffix base == ".gz") then
    ⟨.Skipped "unknown ext", 0, srcFs, outFs⟩
  else if pyEndsWith base ".json.jsonl" then
    ⟨.Skipped "looks decompressed", 0, srcFs, outFs⟩
  else
    let dst := deriveDst base
    if (fsRead outFs dst).isSome then ⟨.Skipped "already exists", 0, srcFs, outFs⟩
    else
      match dec with
      | .ok content =>
        ⟨.Completed, 1, if deleteSrc then fsErase srcFs base else srcFs,
          fsWrite outFs dst content⟩
      | .errEarly => ⟨.Failed, 1, srcFs, outFs⟩
      | .errMid part => ⟨.Failed, 1, srcFs, fsWrite outFs dst part⟩

/-! ## The RecordScanner (`scripts/parse_blogs.py`) -/

/-- One parsed JSONL record with the fields the scanner reads; `url` stands
for `obj["metadata"]["url"]`, each field defaulting to `""`. -/
structure Record where
  id : String
  url : String
  created : String
  added : String
  source : String
  text : String
deriving DecidableEq, Repr

/-- The text written for a kept record: `text.strip().replace("\n", " ")`. -/
def normalizeText (t : String) : String :=
  String.mk (pyReplaceL ['\n'] [' '] (pyStrip t).data)

/-- The CSV row written for a kept record. -/
def outputRow (r : Record) : Record := { r with text := normalizeText r.text }

/-- The filter chain of `parse_jsonl_to_csv`: empty `url` or `text`, short
`text`, or a non-blog URL each `continue` past the write. -/
def keepLine (minLen : Nat) (r : Record) : Bool :=
  if r.url == "" || r.text == "" then false
  else if r.text.length < minLen then false
  else if !is_blog_url r.url then false
  else true

/-- `parse_jsonl_to_csv` at the record level: the input is the list of lines,
each either a parse failure (`none`, counted and skipped) or a record; the
result is `(lines seen, records kept, rows written in order)`. -/
def parse_jsonl_to_csv (minLen : Nat) : List (Option Record) → Nat × Nat × List Record
  | [] => (0, 0, [])
  | ln :: rest =>
    let r := parse_jsonl_to_csv minLen rest
    match ln with
    | none => (r.1 + 1, r.2.1, r.2.2)
    | some rec =>
      if keepLine minLen rec then (r.1 + 1, r.2.1 + 1, outputRow rec :: r.2.2)
      else (r.1 + 1, r.2.1, r.2.2)

/-! ## Process exit behaviour of the three entry points

Each `main` is modelled at its zero-items branch: `download.py` calls
`sys.exit(1)` when the URL list is empty; `unzip.py` and `parse_blogs.py` log
an error and `return`, so the interpreter exits 0. -/

/-- Whether an error-class condition was reported, and the process exit code. -/
structure RunExit where
  errorReported : Bool
  exitCode : Nat
deriving DecidableEq, Repr

/-- `download.py main`: `if not urls: logger.error(...); sys.exit(1)`. -/
def download_main_exit (urls : List String) : RunExit :=
  if urls.isEmpty then ⟨true, 1⟩ else ⟨false, 0⟩

/-- `unzip.py main`: `if not files: logger.error(...); return`. -/
def unzip_main_exit (files : List String) : RunExit :=
  if files.isEmpty then ⟨true, 0⟩ else ⟨false, 0⟩

/-- `parse_blogs.py main`: `if not jsonl_files: logger.error(...); return`. -/
def parse_main_exit (files : List String) : RunExit :=
  if files.isEmpty then ⟨true, 0⟩ else ⟨false, 0⟩

/-! ## Statement-side predicates -/

/-- The string contains no newline character. -/
def noNewline (s : String) : Bool := s.data.all (fun c => !(c == '\n'))

/-- The string neither starts nor ends with a whitespace character. -/
def trimmedEnds (s : String) : Bool :=
  (s.data.head?.all fun c => !c.isWhitespace) &&
    (s.data.getLast?.all fun c => !c.isWhitespace)

/-- A network oracle whose every attempt fails before the destination opens. -/
def netFail0 : Nat → NetResult := fun _ => .failEarly

/-- A network oracle that always "succeeds" with an empty body. -/
def netEmptyBody : Nat → NetResult := fun _ => .success ""

/-! ## Supporting lemmas -/

lemma keepLine_iff (m : Nat) (r : Record) :
    keepLine m r = true ↔
      r.url ≠ "" ∧ r.text ≠ "" ∧ m ≤ r.text.length ∧ is_blog_url r.url = true := by
  unfold keepLine
  split_ifs with h1 h2 h3 <;> simp_all [Nat.not_lt] <;> tauto

lemma fetchLoop_not_skipped (net : Nat → NetResult) (name : String) :
    ∀ (remaining attempt slept : Nat) (fs : Fs) (reason : String),
      (fetchLoop net name remaining attempt slept fs).outcome ≠ .Skipped reason := by
  intro remaining
  induction remaining with
  | zero => intro a s fs reason; simp [fetchLoop]
  | succ k ih =>
    intro a s fs reason
    unfold fetchLoop
    cases hn : net a with
    | success body => simp
    | failEarly => exact ih _ _ _ _
    | failMid p => exact ih _ _ _ _

lemma fetchLoop_attempts_ge (net : Nat → NetResult) (name : String) :
    ∀ (remaining attempt slept : Nat) (fs : Fs), 2 ≤ attempt →
      1 ≤ (fetchLoop net name remaining attempt slept fs).attempts := by
  intro remaining
  induction remaining with
  | zero => intro a s fs ha; simp [fetchLoop]; omega
  | succ k ih =>
    intro a s fs ha
    unfold fetchLoop
    cases hn : net a with
    | success body => simpa using Nat.le_of_succ_le ha
    | failEarly => exact ih _ _ _ (by omega)
    | failMid p => exact ih _ _ _ (by omega)

/-! ## Claim theorems (first batch) -/

/-- **C2** (counterexample): with zero discovered work items the Extractor and
the RecordScanner report an error-class condition but `return` from `main`, so
the process exits 0, not non-zero as the claim states. -/
theorem empty_input_exit_cex :
    (unzip_main_exit ([] : List String)).errorReported = true ∧
    (unzip_main_exit ([] : List String)).exitCode = 0 ∧
    (parse_main_exit ([] : List String)).errorReported = true ∧
    (parse_main_exit ([] : List String)).exitCode = 0 := by decide

/-- **C2** (amended): with zero discovered work items all three stages report
an error-class condition, but only the Fetcher (`download.py`, via
`sys.exit(1)`) exits non-zero; the Extractor and the RecordScanner return
normally with exit code 0. -/
theorem empty_input_exit :
    download_main_exit ([] : List String) = ⟨true, 1⟩ ∧
    unzip_main_exit ([] : List String) = ⟨true, 0⟩ ∧
    parse_main_exit ([] : List String) = ⟨true, 0⟩ := by decide

/-- **C4**: a parsed record is forwarded to the sink iff `url` is non-empty,
`text` is non-empty, `len(text) ≥ minTextLength` and the URL classifier
accepts `url`; in particular a record with short `text` or empty `url` is
never kept, for every threshold. -/
theorem scanner_keep_iff (m : Nat) (r : Record) (rest : List (Option Record)) :
    ((parse_jsonl_to_csv m (some r :: rest)).2.2 =
      if r.url ≠ "" ∧ r.text ≠ "" ∧ m ≤ r.text.length ∧ is_blog_url r.url = true
      then outputRow r :: (parse_jsonl_to_csv m rest).2.2
      else (parse_jsonl_to_csv m rest).2.2) ∧
    (r.text.length < m ∨ r.url = "" →
      (parse_jsonl_to_csv m (some r :: rest)).2.1 = (parse_jsonl_to_csv m rest).2.1 ∧
      (parse_jsonl_to_csv m (some r :: rest)).2.2 = (parse_jsonl_to_csv m rest).2.2) := by
  have hiff := keepLine_iff m r
  constructor
  · by_cases hk : keepLine m r = true
    · rw [if_pos (hiff.mp hk)]
      simp [parse_jsonl_to_csv, hk]
    · have hk' : keepLine m r = false := by
        cases hkk : keepLine m r
        · rfl
        · exact absurd hkk hk
      rw [if_neg (fun hc => hk (hiff.mpr hc))]
      simp [parse_jsonl_to_csv, hk']
  · intro h
    have hk' : keepLine m r = false := by
      cases hkk : keepLine m r
      · rfl
      · exfalso
        have hc := hiff.mp hkk
        rcases h with h | h
        · exact absurd hc.2.2.1 (Nat.not_le.mpr h)
        · exact hc.1 h
    simp [parse_jsonl_to_csv, hk']

/-- **C4** (witness): at threshold 5, a record with two characters of text is
not forwarded. -/
theorem scanner_keep_iff_witness :
    (parse_jsonl_to_csv 5 [some ⟨"1", "https://e.com/blog/p", "", "", "s", "hi"⟩]).2.1 =
      (parse_jsonl_to_csv 5 []).2.1 ∧
    (parse_jsonl_to_csv 5 [some ⟨"1", "https://e.com/blog/p", "", "", "s", "hi"⟩]).2.2 =
      (parse_jsonl_to_csv 5 []).2.2 :=
  (scanner_keep_iff 5 ⟨"1", "https://e.com/blog/p", "", "", "s", "hi"⟩ []).2
    (Or.inl (by decide))

/-- **C7**: on any decompression error the Extractor reports `Failed` after a
single attempt (extraction is never retried), and the source file is left in
place even when `deleteSource` is set. -/
theorem extractor_fail_no_retry (dec : DecompResult) (deleteSrc : Bool) (base : String)
    (srcFs outFs : Fs)
    (hsuf : pathSuffix base = ".zst" ∨ pathSuffix base = ".gz")
    (hname : pyEndsWith base ".json.jsonl" = false)
    (hdst : fsRead outFs (deriveDst base) = none)
    (herr : ∀ c, dec ≠ .ok c) :
    (decompress_file dec deleteSrc base srcFs outFs).outcome = .Failed ∧
    (decompress_file dec deleteSrc base srcFs outFs).attempts = 1 ∧
    (decompress_file dec deleteSrc base srcFs outFs).srcFs = srcFs := by
  have hsuf' : (pathSuffix base == ".zst" || pathSuffix base == ".gz") = true := by
    rcases hsuf with h | h <;> simp [h]
  cases dec with
  | ok c => exact absurd rfl (herr c)
  | errEarly => simp [decompress_file, hsuf', hname, hdst]
  | errMid p => simp [decompress_file, hsuf', hname, hdst]

/-- **C7** (witness): a failing decompression of `a.jsonl.zst` with
`deleteSource` set reports `Failed` after one attempt and keeps the source. -/
theorem extractor_fail_no_retry_witness :
    (decompress_file .errEarly true "a.jsonl.zst" [("a.jsonl.zst", "z")] []).outcome =
      .Failed ∧
    (decompress_file .errEarly true "a.jsonl.zst" [("a.jsonl.zst", "z")] []).attempts = 1 ∧
    (decompress_file .errEarly true "a.jsonl.zst" [("a.jsonl.zst", "z")] []).srcFs =
      [("a.jsonl.zst", "z")] :=
  extractor_fail_no_retry .errEarly true "a.jsonl.zst" [("a.jsonl.zst", "z")] []
    (Or.inl (by decide)) (by decide) (by decide) (fun c h => by cases h)

/-- **C10**: the Extractor skips as soon as the derived destination exists,
whatever its content (a zero-byte destination still yields
`Skipped("already exists")`), while the Fetcher's skip check demands size > 0:
on a zero-byte destination it runs at least one transfer attempt and never
reports `Skipped`. -/
theorem extractor_vs_fetcher_skip :
    (∀ (dec : DecompResult) (deleteSrc : Bool) (base : String) (srcFs outFs : Fs)
      (content : String),
      (pathSuffix base = ".zst" ∨ pathSuffix base = ".gz") →
      pyEndsWith base ".json.jsonl" = false →
      fsRead outFs (deriveDst base) = some content →
      decompress_file dec deleteSrc base srcFs outFs =
        ⟨.Skipped "already exists", 0, srcFs, outFs⟩) ∧
    (∀ (net : Nat → NetResult) (url : String) (retry : Nat) (fs : Fs),
      1 ≤ retry →
      fsRead fs (safe_filename url) = some "" →
      1 ≤ (download_one net url retry fs).attempts ∧
      ∀ reason, (download_one net url retry fs).outcome ≠ .Skipped reason) := by
  constructor
  · intro dec deleteSrc base srcFs outFs content hsuf hname hdst
    have hsuf' : (pathSuffix base == ".zst" || pathSuffix base == ".gz") = true := by
      rcases hsuf with h | h <;> simp [h]
    cases dec <;> simp [decompress_file, hsuf', hname, hdst]
  · intro net url retry fs hretry hread
    obtain ⟨k, rfl⟩ : ∃ k, retry = k + 1 := ⟨retry - 1, by omega⟩
    have hloop : download_one net url (k + 1) fs =
        fetchLoop net (safe_filename url) (k + 1) 1 0 fs := by
      simp [download_one, hread]
    rw [hloop]
    constructor
    · unfold fetchLoop
      cases hn : net 1 with
      | success body => simp
      | failEarly => exact fetchLoop_attempts_ge net _ _ _ _ _ (by omega)
      | failMid p => exact fetchLoop_attempts_ge net _ _ _ _ _ (by omega)
    · exact fun reason => fetchLoop_not_skipped net _ _ _ _ _ reason

/-- **C10** (witness): a zero-byte `a.json.jsonl` destination makes the
Extractor skip `a.jsonl.zst`, while a zero-byte `f` makes the Fetcher run an
attempt for `http://host/f` and not report `Skipped`. -/
theorem extractor_vs_fetcher_skip_witness :
    decompress_file (.ok "c") false "a.jsonl.zst" [] [("a.json.jsonl", "")] =
      ⟨.Skipped "already exists", 0, [], [("a.json.jsonl", "")]⟩ ∧
    1 ≤ (download_one netFail0 "http://host/f" 1 [("f", "")]).attempts ∧
    (download_one netFail0 "http://host/f" 1 [("f", "")]).outcome ≠
      .Skipped "already exists" :=
  ⟨(extractor_vs_fetcher_skip.1 (.ok "c") false "a.jsonl.zst" [] [("a.json.jsonl", "")] ""
      (Or.inl (by decide)) (by decide) (by decide)),
   (extractor_vs_fetcher_skip.2 netFail0 "http://host/f" 1 [("f", "")] (by decide)
      (by decide)).1,
   (extractor_vs_fetcher_skip.2 netFail0 "http://host/f" 1 [("f", "")] (by decide)
      (by decide)).2 "already exists"⟩

/-- **C8**: the URL classifier is a total function of the input string; any
URL-parse failure (modelled by `urlHostname` returning `none`, as on CPython's
`ValueError` for mismatched IPv6 brackets) yields `false`, the empty string
yields `false`, and a malformed URL yields `false` even with a blog-like
path. -/
theorem classifier_total :
    (∀ url : String,
      urlHostname (urlsplitModel (pyLower url)).netloc = none → is_blog_url url = false) ∧
    is_blog_url "" = false ∧
    is_blog_url "http://[::1/blog/" = false := by
  refine ⟨?_, by decide, by decide⟩
  intro url h
  simp [is_blog_url, h]

/-- **C8** (witness): the malformed URL `http://[::1/blog/` parses to no
hostname and classifies `false`. -/
theorem classifier_total_witness : is_blog_url "http://[::1/blog/" = false :=
  classifier_total.1 "http://[::1/blog/" (by decide)

/-- **C5**: when the host matches neither the domain allowlist nor the
`blog\d*.` subdomain rule, a path with a `/blog` or `/blogs` segment decides
the outcome: `true` unless the path contains `/category/`, `/tag/` or
`/author/`; together with the five concrete examples of the spec. -/
theorem classifier_path_rule :
    (∀ (url : String) (host : List Char),
      urlHostname (urlsplitModel (pyLower url)).netloc = some host →
      domainsRuleL host = false →
      subdomainRuleL host = false →
      blogPathSearchL (urlsplitModel (pyLower url)).path = true →
      is_blog_url url = !overrideRuleL (urlsplitModel (pyLower url)).path) ∧
    is_blog_url "https://foo.blogspot.com/2020/x" = true ∧
    is_blog_url "https://example.com/blog/my-post" = true ∧
    is_blog_url "https://blog2.acme.io/" = true ∧
    is_blog_url "https://example.com/blog/category/news" = false ∧
    is_blog_url "https://example.com/shop/item" = false := by
  refine ⟨?_, by decide, by decide, by decide, by decide, by decide⟩
  intro url host hparse hdom hsub hpath
  simp only [is_blog_url, hparse, hdom, hsub, hpath]
  cases hov : overrideRuleL (urlsplitModel (pyLower url)).path <;> simp

/-- **C5** (witness): `https://example.com/blog/my-post` is kept by the path
rule with no override present. -/
theorem classifier_path_rule_witness :
    is_blog_url "https://example.com/blog/my-post" =
      !overrideRuleL (urlsplitModel (pyLower "https://example.com/blog/my-post")).path :=
  classifier_path_rule.1 "https://example.com/blog/my-post" "example.com".data
    (by decide) (by decide) (by decide) (by decide)

lemma fetchLoop_allFail (net : Nat → NetResult) (name : String)
    (hfail : ∀ a b, net a ≠ .success b) :
    ∀ (remaining a0 slept : Nat) (fs : Fs),
      (fetchLoop net name remaining (a0 + 1) slept fs).outcome = .Failed ∧
      (fetchLoop net name remaining (a0 + 1) slept fs).attempts = a0 + remaining ∧
      (fetchLoop net name remaining (a0 + 1) slept fs).slept =
        slept + remaining * (2 * a0 + remaining + 1) := by
  intro remaining
  induction remaining with
  | zero => intro a0 slept fs; simp [fetchLoop]
  | succ k ih =>
    intro a0 slept fs
    unfold fetchLoop
    cases hn : net (a0 + 1) with
    | success body => exact absurd hn (hfail _ body)
    | failEarly =>
      obtain ⟨h1, h2, h3⟩ := ih (a0 + 1) (slept + 2 * (a0 + 1)) fs
      refine ⟨h1, by rw [h2]; ring, by rw [h3]; ring⟩
    | failMid p =>
      obtain ⟨h1, h2, h3⟩ := ih (a0 + 1) (slept + 2 * (a0 + 1)) (fsWrite fs name p)
      refine ⟨h1, by rw [h2]; ring, by rw [h3]; ring⟩

/-- **C1** (counterexample): with `retry_limit = 1` and a target that always
fails, the claim's backoff formula `2 * (1 + ... + (L-1)) = 0` does not hold:
the code sleeps `2 * 1` after the final (only) failed attempt. -/
theorem fetcher_retry_exhaustion_cex :
    ¬ ((download_one netFail0 "http://host/f" 1 []).outcome = .Failed ∧
       (download_one netFail0 "http://host/f" 1 []).attempts = 1 ∧
       (download_one netFail0 "http://host/f" 1 []).slept =
         2 * (∑ i in Finset.range 1, i)) := by
  intro h
  exact absurd h.2.2 (by rw [Finset.sum_range_one]; decide)

/-- **C1** (amended): a Fetcher target that always fails is attempted exactly
`L` times and reported `Failed`, but the cumulative backoff delay is
`2 * (1 + 2 + ... + L)`: the linear delay `2 * attempt` is slept after every
failed attempt, including the final one. -/
theorem fetcher_retry_exhaustion (net : Nat → NetResult) (url : String) (L : Nat)
    (fs : Fs) (hL : 1 ≤ L)
    (hfail : ∀ a b, net a ≠ NetResult.success b)
    (habsent : ∀ c, fsRead fs (safe_filename url) = some c → c.length = 0) :
    (download_one net url L fs).outcome = .Failed ∧
    (download_one net url L fs).attempts = L ∧
    (download_one net url L fs).slept = 2 * (∑ i in Finset.range (L + 1), i) := by
  have hG := Finset.sum_range_id_mul_two (L + 1)
  rw [Nat.succ_sub_one] at hG
  have hsum : 2 * (∑ i in Finset.range (L + 1), i) = L * (L + 1) := by
    rw [Nat.mul_comm 2, hG, Nat.mul_comm]
  have hloop := fetchLoop_allFail net (safe_filename url) hfail L 0 0 fs
  have hred : download_one net url L fs = fetchLoop net (safe_filename url) L 1 0 fs := by
    cases hr : fsRead fs (safe_filename url) with
    | none => simp [download_one, hr]
    | some c =>
      have hc : c.length = 0 := habsent c hr
      simp [download_one, hr, hc]
  rw [hred, hsum]
  refine ⟨hloop.1, by rw [hloop.2.1]; ring, by rw [hloop.2.2]; ring⟩

/-- **C1** (witness): three attempts on an always-failing target sleep
`2 * (1 + 2 + 3) = 12` time-units. -/
theorem fetcher_retry_exhaustion_witness :
    (download_one netFail0 "http://host/f" 3 []).outcome = .Failed ∧
    (download_one netFail0 "http://host/f" 3 []).attempts = 3 ∧
    (download_one netFail0 "http://host/f" 3 []).slept =
      2 * (∑ i in Finset.range 4, i) :=
  fetcher_retry_exhaustion netFail0 "http://host/f" 3 [] (by decide)
    (fun a b h => by simp [netFail0] at h)
    (fun c hc => by simp [fsRead, List.lookup] at hc)

/-- A network oracle that always delivers the body `"data"`. -/
def netBody : Nat → NetResult := fun _ => .success "data"

lemma download_one_skip (net : Nat → NetResult) (url : String) (retry : Nat) (fs : Fs)
    (content : String) (h : fsRead fs (safe_filename url) = some content)
    (hl : 0 < content.length) :
    download_one net url retry fs = ⟨.Skipped "already exists", 0, 0, fs⟩ := by
  simp [download_one, h, hl]

/-- **C6** (counterexample): a fetch that "succeeds" with an empty body leaves
a zero-byte destination; the first run reports `Completed`, yet the second run
over the same directory does not report `Skipped` — the `size > 0` check sends
it back to the network. -/
theorem fetcher_idempotent_cex :
    (download_one netEmptyBody "http://host/f" 5 []).outcome = .Completed ∧
    (download_one netEmptyBody "http://host/f" 5
        (download_one netEmptyBody "http://host/f" 5 []).fs).outcome = .Completed ∧
    (download_one netEmptyBody "http://host/f" 5
        (download_one netEmptyBody "http://host/f" 5 []).fs).outcome ≠
      .Skipped "already exists" := ⟨by decide, by decide, by decide⟩

/-- **C6** (amended): a destination existing with size > 0 makes the Fetcher
return `Skipped("already exists")` with zero attempts, zero delay and the
directory untouched, independently of the network; hence a second run is
`Skipped` with content preserved for every item whose first run completed
leaving a non-empty file (an empty-body success leaves a zero-byte file that
is re-attempted instead). -/
theorem fetcher_idempotent (net net' : Nat → NetResult) (url : String)
    (retry retry' : Nat) (fs : Fs) :
    (∀ content, fsRead fs (safe_filename url) = some content → 0 < content.length →
      download_one net url retry fs = ⟨.Skipped "already exists", 0, 0, fs⟩ ∧
      download_one net url retry fs = download_one net' url retry fs) ∧
    ((download_one net url retry fs).outcome = .Completed →
      ∀ c, fsRead (download_one net url retry fs).fs (safe_filename url) = some c →
        0 < c.length →
        download_one net' url retry' (download_one net url retry fs).fs =
          ⟨.Skipped "already exists", 0, 0, (download_one net url retry fs).fs⟩) := by
  constructor
  · intro content h hl
    refine ⟨download_one_skip net url retry fs content h hl, ?_⟩
    rw [download_one_skip net url retry fs content h hl,
      download_one_skip net' url retry fs content h hl]
  · intro _ c hc hl
    exact download_one_skip net' url retry' _ c hc hl

/-- **C6** (witness): after a successful fetch of a non-empty body, a second
run with a different retry limit skips and preserves the directory. -/
theorem fetcher_idempotent_witness :
    download_one netFail0 "http://host/f" 2
        (download_one netBody "http://host/f" 5 []).fs =
      ⟨.Skipped "already exists", 0, 0, (download_one netBody "http://host/f" 5 []).fs⟩ :=
  (fetcher_idempotent netBody netFail0 "http://host/f" 5 2 []).2 (by decide) "data"
    (by decide) (by decide)

lemma head?_dropWhile_not (p : Char → Bool) :
    ∀ (l : List Char) (c : Char), (l.dropWhile p).head? = some c → p c = false := by
  intro l
  induction l with
  | nil => intro c h; simp [List.dropWhile] at h
  | cons a as ih =>
    intro c h
    rw [List.dropWhile_cons] at h
    by_cases hp : p a
    · rw [if_pos hp] at h
      exact ih c h
    · rw [if_neg hp] at h
      simp at h
      rw [← h]
      simpa using hp

lemma getLast?_dropWhile (p : Char → Bool) (l : List Char)
    (hne : l.dropWhile p ≠ []) : (l.dropWhile p).getLast? = l.getLast? := by
  conv_rhs => rw [← List.takeWhile_append_dropWhile (p := p) (l := l)]
  rw [List.getLast?_append_of_ne_nil _ hne]

lemma pyStrip_ends (s : String) : trimmedEnds (pyStrip s) = true := by
  unfold trimmedEnds pyStrip
  rw [Bool.and_eq_true]
  constructor
  · rw [List.head?_reverse]
    cases hm : (s.data.dropWhile Char.isWhitespace).reverse.dropWhile Char.isWhitespace with
    | nil => simp
    | cons a as =>
      have hne : (s.data.dropWhile Char.isWhitespace).reverse.dropWhile Char.isWhitespace
          ≠ [] := by rw [hm]; exact List.cons_ne_nil a as
      rw [← hm, getLast?_dropWhile _ _ hne, List.getLast?_reverse]
      cases hd : (s.data.dropWhile Char.isWhitespace).head? with
      | none => simp
      | some b => simpa using head?_dropWhile_not _ _ _ hd
  · rw [List.getLast?_reverse]
    cases hd : ((s.data.dropWhile Char.isWhitespace).reverse.dropWhile
        Char.isWhitespace).head? with
    | none => simp
    | some b => simpa using head?_dropWhile_not _ _ _ hd

lemma pyReplaceFuel_single (a b : Char) :
    ∀ (fuel : Nat) (s : List Char), s.length ≤ fuel →
      pyReplaceFuel [a] [b] fuel s = s.map (fun c => if c == a then b else c) := by
  intro fuel
  induction fuel with
  | zero =>
    intro s hs
    rw [List.eq_nil_of_length_eq_zero (Nat.le_zero.mp hs)]
    simp [pyReplaceFuel]
  | succ f ih =>
    intro s hs
    cases s with
    | nil => simp [pyReplaceFuel]
    | cons c cs =>
      have hlen : cs.length ≤ f := by
        simp only [List.length_cons] at hs
        omega
      by_cases h : a = c
      · subst h
        simp [pyReplaceFuel, hasPreL, ih cs hlen]
      · have hca : ¬ c = a := Ne.symm h
        simp [pyReplaceFuel, hasPreL, h, hca, ih cs hlen]

lemma normalizeText_map (t : String) :
    (normalizeText t).data = (pyStrip t).data.map (fun c => if c == '\n' then ' ' else c) := by
  show pyReplaceL ['\n'] [' '] (pyStrip t).data = _
  unfold pyReplaceL
  exact pyReplaceFuel_single '\n' ' ' _ _ (Nat.le_refl _)

lemma normalizeText_noNewline (t : String) : noNewline (normalizeText t) = true := by
  unfold noNewline
  rw [normalizeText_map, List.all_map]
  rw [List.all_eq_true]
  intro x _
  by_cases h : x = '\n' <;> simp [h]

lemma normalizeText_trimmed (t : String) : trimmedEnds (normalizeText t) = true := by
  have hs := pyStrip_ends t
  unfold trimmedEnds at hs ⊢
  rw [normalizeText_map, List.head?_map, List.getLast?_map]
  rw [Bool.and_eq_true] at hs ⊢
  obtain ⟨h1, h2⟩ := hs
  constructor
  · cases hh : (pyStrip t).data.head? with
    | none => simp
    | some c =>
      rw [hh] at h1
      simp only [Option.all_some] at h1
      have hw : c.isWhitespace = false := by simpa using h1
      have hcn : ¬ c = '\n' := by
        intro e
        rw [e] at hw
        exact absurd hw (by decide)
      simp [hcn, hw]
  · cases hh : (pyStrip t).data.getLast? with
    | none => simp
    | some c =>
      rw [hh] at h2
      simp only [Option.all_some] at h2
      have hw : c.isWhitespace = false := by simpa using h2
      have hcn : ¬ c = '\n' := by
        intro e
        rw [e] at hw
        exact absurd hw (by decide)
      simp [hcn, hw]

/-- **C9**: every row forwarded by the RecordScanner carries the
whitespace-normalized text of its source record — `strip()` then interior
newlines to spaces — so it contains no newline and no leading or trailing
whitespace. -/
theorem scanner_text_normalized (m : Nat) (lines : List (Option Record)) (row : Record)
    (hrow : row ∈ (parse_jsonl_to_csv m lines).2.2) :
    (∃ r, some r ∈ lines ∧ row = outputRow r ∧ row.text = normalizeText r.text) ∧
    noNewline row.text = true ∧ trimmedEnds row.text = true := by
  induction lines with
  | nil => simp [parse_jsonl_to_csv] at hrow
  | cons ln rest ih =>
    cases ln with
    | none =>
      simp only [parse_jsonl_to_csv] at hrow
      obtain ⟨⟨r, hr1, hr2, hr3⟩, h3, h4⟩ := ih hrow
      exact ⟨⟨r, List.mem_cons_of_mem _ hr1, hr2, hr3⟩, h3, h4⟩
    | some rec =>
      by_cases hk : keepLine m rec = true
      · simp only [parse_jsonl_to_csv, hk, if_true] at hrow
        rcases List.mem_cons.mp hrow with h | h
        · subst h
          refine ⟨⟨rec, List.mem_cons_self _ _, rfl, rfl⟩, ?_, ?_⟩
          · exact normalizeText_noNewline rec.text
          · exact normalizeText_trimmed rec.text
        · obtain ⟨⟨r, hr1, hr2, hr3⟩, h3, h4⟩ := ih h
          exact ⟨⟨r, List.mem_cons_of_mem _ hr1, hr2, hr3⟩, h3, h4⟩
      · have hk' : keepLine m rec = false := by
          cases hkk : keepLine m rec
          · rfl
          · exact absurd hkk hk
        simp only [parse_jsonl_to_csv, hk', if_false, Bool.false_eq_true] at hrow
        obtain ⟨⟨r, hr1, hr2, hr3⟩, h3, h4⟩ := ih hrow
        exact ⟨⟨r, List.mem_cons_of_mem _ hr1, hr2, hr3⟩, h3, h4⟩

/-- A sample record whose text needs both trimming and newline collapsing. -/
def sampleRec : Record := ⟨"1", "https://example.com/blog/x", "", "", "s", "  hi\nthere "⟩

/-- **C9** (witness): the row forwarded for `sampleRec` carries
`"hi there"`: newline-free, trimmed, and equal to the normalized source. -/
theorem scanner_text_normalized_witness :
    (∃ r, some r ∈ [some sampleRec] ∧ outputRow sampleRec = outputRow r ∧
      (outputRow sampleRec).text = normalizeText r.text) ∧
    noNewline (outputRow sampleRec).text = true ∧
    trimmedEnds (outputRow sampleRec).text = true :=
  scanner_text_normalized 0 [some sampleRec] (outputRow sampleRec) (by decide)

lemma data_append (s t : String) : (s ++ t).data = s.data ++ t.data := rfl

lemma hasPreL_iff : ∀ (p s : List Char), hasPreL p s = true ↔ p <+: s
  | [], s => by simp [hasPreL]
  | p :: ps, [] => by simp [hasPreL]
  | p :: ps, c :: cs => by
    simp [hasPreL, List.cons_prefix_cons, hasPreL_iff ps cs]

lemma hasPreL_append_self : ∀ (p t : List Char), hasPreL p (p ++ t) = true
  | [], _ => rfl
  | p :: ps, t => by simp [hasPreL, hasPreL_append_self ps t]

lemma hasPreL_self (p : List Char) : hasPreL p p = true := by
  have h := hasPreL_append_self p []
  rwa [List.append_nil] at h

lemma pyReplaceFuel_nil (pat rep : List Char) : ∀ f, pyReplaceFuel pat rep f [] = []
  | 0 => rfl
  | _ + 1 => rfl

lemma pyReplaceFuel_stem_pat (pat rep : List Char) (hpat : pat ≠ []) :
    ∀ (stem : List Char) (fuel : Nat), (stem ++ pat).length ≤ fuel →
      hasSubL pat (stem ++ pat).dropLast = false →
      pyReplaceFuel pat rep fuel (stem ++ pat) = stem ++ rep := by
  intro stem
  induction stem with
  | nil =>
    intro fuel hf hsub
    obtain ⟨p, ps, rfl⟩ : ∃ p ps, pat = p :: ps := by
      cases pat with
      | nil => exact absurd rfl hpat
      | cons p ps => exact ⟨p, ps, rfl⟩
    obtain ⟨f, rfl⟩ : ∃ f, fuel = f + 1 := by
      refine ⟨fuel - 1, ?_⟩
      simp at hf
      omega
    rw [List.nil_append, List.nil_append]
    simp [pyReplaceFuel, hasPreL_self, List.drop_length, pyReplaceFuel_nil]
  | cons c st ih =>
    intro fuel hf hsub
    obtain ⟨f, rfl⟩ : ∃ f, fuel = f + 1 := by
      refine ⟨fuel - 1, ?_⟩
      simp at hf
      omega
    have hpq := List.dropLast_append_getLast hpat
    -- rewrite the dropLast in hsub into an append form
    have hconc : (c :: st) ++ pat = ((c :: st) ++ pat.dropLast) ++ [pat.getLast hpat] := by
      rw [List.append_assoc, hpq]
    rw [hconc, List.dropLast_concat, List.cons_append] at hsub
    -- hsub : hasSubL pat (c :: (st ++ pat.dropLast)) = false
    rw [List.cons_append]
    have hnotpre : hasPreL pat (c :: (st ++ pat)) = false := by
      cases hpre : hasPreL pat (c :: (st ++ pat)) with
      | false => rfl
      | true =>
        exfalso
        obtain ⟨t, ht⟩ := (hasPreL_iff _ _).mp hpre
        have htne : t ≠ [] := by
          intro e
          rw [e, List.append_nil] at ht
          have hlen := congrArg List.length ht
          simp at hlen
          omega
        have hq := List.dropLast_append_getLast htne
        rw [← hq] at ht
        have hrhs : c :: (st ++ pat) =
            (c :: (st ++ pat.dropLast)) ++ [pat.getLast hpat] := by
          rw [List.cons_append, List.append_assoc, hpq]
        rw [hrhs, ← List.append_assoc] at ht
        have hinj := List.append_inj' ht (by simp)
        have hpre2 : hasPreL pat (c :: (st ++ pat.dropLast)) = true :=
          (hasPreL_iff _ _).mpr ⟨t.dropLast, hinj.1⟩
        rw [hasSubL, hpre2] at hsub
        simp at hsub
    have hsub' : hasSubL pat ((st ++ pat).dropLast) = false := by
      have hconc2 : st ++ pat = (st ++ pat.dropLast) ++ [pat.getLast hpat] := by
        rw [List.append_assoc, hpq]
      rw [hconc2, List.dropLast_concat]
      rw [hasSubL] at hsub
      exact (Bool.or_eq_false_iff.mp hsub).2
    have hlen : (st ++ pat).length ≤ f := by
      simp only [List.cons_append, List.length_cons] at hf
      simpa using Nat.le_of_succ_le_succ hf
    rw [pyReplaceFuel, if_neg]
    · rw [ih f hlen hsub', List.cons_append]
    · simp [hnotpre]

lemma pyReplace_stem_pat (stem pat rep : String) (hpat : pat.data ≠ [])
    (hsub : hasSubL pat.data (stem.data ++ pat.data).dropLast = false) :
    pyReplace (stem ++ pat) pat rep = stem ++ rep := by
  unfold pyReplace pyReplaceL
  rw [data_append]
  rw [pyReplaceFuel_stem_pat pat.data rep.data hpat stem.data _ (Nat.le_refl _) hsub]
  rw [← data_append]

lemma pyEndsWith_append_self (stem pat : String) : pyEndsWith (stem ++ pat) pat = true := by
  unfold pyEndsWith hasSufL
  rw [data_append, List.reverse_append]
  exact hasPreL_append_self _ _

lemma notSuf_gz_zst (stem : String) :
    pyEndsWith (stem ++ ".jsonl.gz") ".jsonl.zst" = false := by
  unfold pyEndsWith hasSufL
  rw [data_append, List.reverse_append]
  rfl

lemma notSuf_jzst_lzst (stem : String) :
    pyEndsWith (stem ++ ".json.zst") ".jsonl.zst" = false := by
  unfold pyEndsWith hasSufL
  rw [data_append, List.reverse_append]
  rfl

lemma notSuf_jzst_lgz (stem : String) :
    pyEndsWith (stem ++ ".json.zst") ".jsonl.gz" = false := by
  unfold pyEndsWith hasSufL
  rw [data_append, List.reverse_append]
  rfl

lemma notSuf_jgz_lzst (stem : String) :
    pyEndsWith (stem ++ ".json.gz") ".jsonl.zst" = false := by
  unfold pyEndsWith hasSufL
  rw [data_append, List.reverse_append]
  rfl

lemma notSuf_jgz_lgz (stem : String) :
    pyEndsWith (stem ++ ".json.gz") ".jsonl.gz" = false := by
  unfold pyEndsWith hasSufL
  rw [data_append, List.reverse_append]
  rfl

lemma notSuf_jgz_jzst (stem : String) :
    pyEndsWith (stem ++ ".json.gz") ".json.zst" = false := by
  unfold pyEndsWith hasSufL
  rw [data_append, List.reverse_append]
  rfl

lemma extSplit_dotfree : ∀ (l : List Char), l.all (fun c => !(c == '.')) = true →
    extSplit l = none := by
  intro l
  induction l with
  | nil => intro _; rfl
  | cons c cs ih =>
    intro h
    rw [List.all_cons, Bool.and_eq_true] at h
    have hc : (c == '.') = false := by
      cases hcc : (c == '.')
      · rfl
      · rw [hcc] at h; exact absurd h.1 (by decide)
    simp [extSplit, hc, ih h.2]

lemma extSplit_append (b : List Char) (hb : b.all (fun c => !(c == '.')) = true) :
    ∀ (st : List Char), extSplit (st ++ '.' :: b) = some ('.' :: b) := by
  intro st
  induction st with
  | nil =>
    rw [List.nil_append]
    simp [extSplit, extSplit_dotfree b hb]
  | cons c cs ih =>
    rw [List.cons_append]
    by_cases hc : (c == '.') = true
    · have hc' : c = '.' := by simpa using hc
      subst hc'
      simp [extSplit, ih]
    · have hc' : (c == '.') = false := by
        cases hcc : (c == '.')
        · rfl
        · exact absurd hcc hc
      simp [extSplit, hc', ih]

lemma pathSuffix_canonical (stem : String) :
    pathSuffix (stem ++ ".json.jsonl") = ".jsonl" := by
  unfold pathSuffix
  have hd : (stem ++ ".json.jsonl").data =
      (stem.data ++ ".json".data) ++ '.' :: "jsonl".data := by
    rw [data_append, List.append_assoc]
    rfl
  rw [hd, extSplit_append "jsonl".data (by decide)]
  have hc1 : (('.' :: "jsonl".data).length ==
      (stem.data ++ ".json".data ++ '.' :: "jsonl".data).length) = false := by
    have hlen : (stem.data ++ ".json".data ++ '.' :: "jsonl".data).length =
        stem.data.length + 11 := by
      simp [List.length_append]
    rw [hlen]
    cases hcc : (('.' :: "jsonl".data).length == stem.data.length + 11) with
    | false => rfl
    | true =>
      have h := eq_of_beq hcc
      rw [show ('.' :: "jsonl".data).length = 6 from rfl] at h
      exact absurd h (by omega)
  have hc2 : (('.' :: "jsonl".data).length == 1) = false := rfl
  simp [hc1, hc2]

lemma deriveDst_jsonl_zst (stem : String)
    (hsub : hasSubL ".jsonl.zst".data (stem.data ++ ".jsonl.zst".data).dropLast = false) :
    deriveDst (stem ++ ".jsonl.zst") = stem ++ ".json.jsonl" := by
  unfold deriveDst
  rw [pyEndsWith_append_self, if_pos rfl]
  exact pyReplace_stem_pat stem ".jsonl.zst" ".json.jsonl" (by decide) hsub

lemma deriveDst_jsonl_gz (stem : String)
    (hsub : hasSubL ".jsonl.gz".data (stem.data ++ ".jsonl.gz".data).dropLast = false) :
    deriveDst (stem ++ ".jsonl.gz") = stem ++ ".json.jsonl" := by
  unfold deriveDst
  rw [notSuf_gz_zst, pyEndsWith_append_self]
  simp only [Bool.false_eq_true, if_false, if_true]
  exact pyReplace_stem_pat stem ".jsonl.gz" ".json.jsonl" (by decide) hsub

lemma deriveDst_json_zst (stem : String)
    (hsub : hasSubL ".json.zst".data (stem.data ++ ".json.zst".data).dropLast = false) :
    deriveDst (stem ++ ".json.zst") = stem ++ ".json.jsonl" := by
  unfold deriveDst
  rw [notSuf_jzst_lzst, notSuf_jzst_lgz, pyEndsWith_append_self]
  simp only [Bool.false_eq_true, if_false, if_true]
  exact pyReplace_stem_pat stem ".json.zst" ".json.jsonl" (by decide) hsub

lemma deriveDst_json_gz (stem : String)
    (hsub : hasSubL ".json.gz".data (stem.data ++ ".json.gz".data).dropLast = false) :
    deriveDst (stem ++ ".json.gz") = stem ++ ".json.jsonl" := by
  unfold deriveDst
  rw [notSuf_jgz_lzst, notSuf_jgz_lgz, notSuf_jgz_jzst, pyEndsWith_append_self]
  simp only [Bool.false_eq_true, if_false, if_true]
  exact pyReplace_stem_pat stem ".json.gz" ".json.jsonl" (by decide) hsub

/-- **C3** (counterexample): an input already named `part.json.jsonl` is
skipped by the extension gate (reason `unknown ext`), not by the dedicated
already-decompressed branch, which the `.zst`/`.gz` suffix check makes
unreachable; and on a name where the compressed pattern occurs twice, Python's
`replace` rewrites both occurrences rather than just the suffix. -/
theorem extractor_dest_name_cex :
    (decompress_file (.ok "c") false "part.json.jsonl" [] []).outcome =
      .Skipped "unknown ext" ∧
    (decompress_file (.ok "c") false "part.json.jsonl" [] []).outcome ≠
      .Skipped "looks decompressed" ∧
    deriveDst "a.jsonl.zst.jsonl.zst" = "a.json.jsonl.json.jsonl" ∧
    deriveDst "a.jsonl.zst.jsonl.zst" ≠ "a.jsonl.zst.json.jsonl" := by
  refine ⟨by decide, by decide, by decide, by decide⟩

/-- **C3** (amended): for a source name `stem ++ suffix` in which the
compressed pattern occurs only once (only as the suffix), the Extractor
derives the destination by replacing that suffix with `.json.jsonl`, for each
of the four recognized suffixes; and an input already bearing the canonical
decompressed name `.json.jsonl` is skipped with reason `unknown ext` — the
extension gate fires before the dedicated already-decompressed branch, which
is unreachable. -/
theorem extractor_dest_name :
    (∀ stem : String,
      (hasSubL ".jsonl.zst".data (stem.data ++ ".jsonl.zst".data).dropLast = false →
        deriveDst (stem ++ ".jsonl.zst") = stem ++ ".json.jsonl") ∧
      (hasSubL ".jsonl.gz".data (stem.data ++ ".jsonl.gz".data).dropLast = false →
        deriveDst (stem ++ ".jsonl.gz") = stem ++ ".json.jsonl") ∧
      (hasSubL ".json.zst".data (stem.data ++ ".json.zst".data).dropLast = false →
        deriveDst (stem ++ ".json.zst") = stem ++ ".json.jsonl") ∧
      (hasSubL ".json.gz".data (stem.data ++ ".json.gz".data).dropLast = false →
        deriveDst (stem ++ ".json.gz") = stem ++ ".json.jsonl")) ∧
    (∀ (dec : DecompResult) (deleteSrc : Bool) (stem : String) (srcFs outFs : Fs),
      decompress_file dec deleteSrc (stem ++ ".json.jsonl") srcFs outFs =
        ⟨.Skipped "unknown ext", 0, srcFs, outFs⟩) := by
  constructor
  · intro stem
    exact ⟨deriveDst_jsonl_zst stem, deriveDst_jsonl_gz stem,
      deriveDst_json_zst stem, deriveDst_json_gz stem⟩
  · intro dec deleteSrc stem srcFs outFs
    have hp := pathSuffix_canonical stem
    simp [decompress_file, hp]

/-- **C3** (witness): `part-0001.jsonl.zst` maps to `part-0001.json.jsonl`,
and `part.json.jsonl` is skipped with reason `unknown ext`. -/
theorem extractor_dest_name_witness :
    deriveDst ("part-0001" ++ ".jsonl.zst") = "part-0001" ++ ".json.jsonl" ∧
    decompress_file (.ok "c") true ("part" ++ ".json.jsonl") [] [] =
      ⟨.Skipped "unknown ext", 0, [], []⟩ :=
  ⟨((extractor_dest_name.1 "part-0001").1 (by decide)),
   extractor_dest_name.2 (.ok "c") true "part" [] []⟩
